import Mathlib

/-!
Verification development for the EPG cacher repository.

The repository merges XMLTV guide documents: it carries forward channels and
programmes from a cached old document into a freshly fetched one, matching
entries either exactly or tolerantly (time rounding, overlap windows), and
attaches images from a secondary feed through a user channel mapping.

This file gives a shallow embedding of the merge-and-match core:
  * a model of Python aware/naive datetimes (`PyDT`) and of the
    `datetime.strptime` calls made by the code (fixed-width field parsing of
    the XMLTV format variants actually used by the feeds),
  * XML elements as tag / attribute-list / children trees (`Elem`),
  * the functions of `functions.py` (namespace `Functions`),
    `fetch_epg.py` (namespace `FetchEpg`) and the `EPGCacher` class of
    `epg_cacher.py` (namespace `Cacher`),
and proves or refutes the specification claims about them.

Attribute values are modelled as `List Char` (byte equality is list
equality); fallible Python code is modelled in `Except PyErr`.
-/

/-- A Python exception relevant to the modelled code. -/
inductive PyErr where
  | typeError
  | valueError
  deriving DecidableEq, Repr

/-- A parsed Python `datetime`: `wall` is the wall-clock value in seconds on
the proleptic Gregorian calendar (`toordinal * 86400 + seconds-in-day`),
`tz` the UTC offset in seconds when the datetime is timezone-aware and
`none` when it is naive. -/
structure PyDT where
  wall : Int
  tz : Option Int
  deriving DecidableEq, Repr

/-- The absolute instant of an aware datetime (wall clock minus UTC offset);
for a naive datetime this is just the wall clock. -/
def PyDT.inst (d : PyDT) : Int := d.wall - d.tz.getD 0

/-- `datetime.replace(tzinfo=None)` applied when the value is aware:
strip the timezone, keep the wall-clock fields. -/
def stripTz (d : PyDT) : PyDT := PyDT.mk d.wall none

/-- `d + timedelta(seconds=k)`: shifts the wall clock, keeps the tzinfo. -/
def addS (d : PyDT) (k : Int) : PyDT := PyDT.mk (d.wall + k) d.tz

/-- `d - timedelta(seconds=k)`. -/
def subS (d : PyDT) (k : Int) : PyDT := PyDT.mk (d.wall - k) d.tz

/-- Python `<` on datetimes: aware/aware compares instants, naive/naive
compares wall clocks, mixed raises `TypeError`. -/
def pyLt (a b : PyDT) : Except PyErr Bool :=
  match a.tz, b.tz with
  | some x, some y => .ok (decide (a.wall - x < b.wall - y))
  | none, none => .ok (decide (a.wall < b.wall))
  | _, _ => .error .typeError

/-- Python `<=` on datetimes, same mixing rules as `pyLt`. -/
def pyLe (a b : PyDT) : Except PyErr Bool :=
  match a.tz, b.tz with
  | some x, some y => .ok (decide (a.wall - x ≤ b.wall - y))
  | none, none => .ok (decide (a.wall ≤ b.wall))
  | _, _ => .error .typeError

/-! ### strptime

The code parses timestamps through `datetime.strptime` with the format
strings `"%Y%m%d%H%M%S %z"`, `"%Y%m%d%H%M%S"`, `"%Y-%m-%d %H:%M:%S"`,
`"%Y-%m-%dT%H:%M:%S"` and `"%Y-%m-%dT%H:%M:%SZ"` (the trailing `Z` of the
last one is a literal character, so it yields a naive datetime).  A format
is a token list; numeric directives consume a fixed number of digit
characters (the width the XMLTV timestamps use), `%z` consumes a sign and
four digits, and a literal consumes exactly itself.  The whole input must
be consumed.  Field values are validated as `datetime` construction does. -/

inductive Tok where
  | d4
  | d2
  | zone
  | lit (c : Char)
  deriving DecidableEq

def d2n (c : Char) : Nat := c.toNat - 48

/-- Consume two digit characters. -/
def grab2 : List Char → Option (Nat × List Char)
  | c1 :: c2 :: cs =>
    if c1.isDigit && c2.isDigit then some (d2n c1 * 10 + d2n c2, cs) else none
  | _ => none

/-- Consume four digit characters. -/
def grab4 : List Char → Option (Nat × List Char)
  | c1 :: c2 :: c3 :: c4 :: cs =>
    if c1.isDigit && c2.isDigit && c3.isDigit && c4.isDigit then
      some (((d2n c1 * 10 + d2n c2) * 10 + d2n c3) * 10 + d2n c4, cs)
    else none
  | _ => none

/-- The signed offset contributed by `%z`. -/
def zoneOff (c : Char) (hh mm : Nat) : Int :=
  if c = '-' then -((hh : Int) * 3600 + mm * 60) else (hh : Int) * 3600 + mm * 60

/-- Run a format over the input, collecting the numeric fields in order and
the UTC offset contributed by a `%z` directive.  `%z` accepts `±HHMM` with
`HH ≤ 23` and `MM ≤ 59` (an offset of a day or more makes `datetime`
construction fail, which surfaces as a parse failure). -/
def runFmt : List Tok → List Char → Option (List Nat × Option Int)
  | [], [] => some ([], none)
  | [], _ :: _ => none
  | .d4 :: ts, s =>
    (grab4 s).bind (fun pr =>
      (runFmt ts pr.2).map (fun pr2 => (pr.1 :: pr2.1, pr2.2)))
  | .d2 :: ts, s =>
    (grab2 s).bind (fun pr =>
      (runFmt ts pr.2).map (fun pr2 => (pr.1 :: pr2.1, pr2.2)))
  | .zone :: ts, c :: s =>
    if c = '+' ∨ c = '-' then
      (grab2 s).bind (fun ph =>
        (grab2 ph.2).bind (fun pm =>
          if ph.1 ≤ 23 ∧ pm.1 ≤ 59 then
            (runFmt ts pm.2).map (fun pr => (pr.1, some (zoneOff c ph.1 pm.1)))
          else none))
    else none
  | .zone :: _, [] => none
  | .lit c :: ts, c' :: s => if c' = c then runFmt ts s else none
  | .lit _ :: _, [] => none

def isLeap (y : Nat) : Bool := y % 4 = 0 && (y % 100 ≠ 0 || y % 400 = 0)

def daysInMonth (y m : Nat) : Nat :=
  if m = 2 then (if isLeap y then 29 else 28)
  else if m = 4 ∨ m = 6 ∨ m = 9 ∨ m = 11 then 30
  else 31

/-- Days in the months strictly before month `m`. -/
def daysBeforeMonth (y m : Nat) : Nat :=
  (List.range m).foldl (fun acc k => if 1 ≤ k then acc + daysInMonth y k else acc) 0

/-- `date.toordinal`-style day count: days before January 1st of year `y`. -/
def daysBeforeYear (y : Nat) : Nat :=
  365 * (y - 1) + (y - 1) / 4 - (y - 1) / 100 + (y - 1) / 400

/-- Validate the parsed fields exactly as `datetime(...)` construction does
and build the wall-clock value. -/
def buildDT (y mo d h mi s : Nat) (z : Option Int) : Option PyDT :=
  if 1 ≤ y ∧ 1 ≤ mo ∧ mo ≤ 12 ∧ 1 ≤ d ∧ d ≤ daysInMonth y mo ∧
     h ≤ 23 ∧ mi ≤ 59 ∧ s ≤ 59 then
    some (PyDT.mk
      (((daysBeforeYear y + daysBeforeMonth y mo + (d - 1) : Nat) : Int) * 86400 +
        ((h * 3600 + mi * 60 + s : Nat) : Int)) z)
  else none

/-- `"%Y%m%d%H%M%S %z"` (aware). -/
def FMT1 : List Tok := [.d4, .d2, .d2, .d2, .d2, .d2, .lit ' ', .zone]
/-- `"%Y%m%d%H%M%S"` (naive). -/
def FMT2 : List Tok := [.d4, .d2, .d2, .d2, .d2, .d2]
/-- `"%Y-%m-%d %H:%M:%S"` (naive). -/
def FMT3 : List Tok :=
  [.d4, .lit '-', .d2, .lit '-', .d2, .lit ' ', .d2, .lit ':', .d2, .lit ':', .d2]
/-- `"%Y-%m-%dT%H:%M:%S"` (naive). -/
def FMT4 : List Tok :=
  [.d4, .lit '-', .d2, .lit '-', .d2, .lit 'T', .d2, .lit ':', .d2, .lit ':', .d2]
/-- `"%Y-%m-%dT%H:%M:%SZ"` (naive; the `Z` is a literal). -/
def FMT5 : List Tok := FMT4 ++ [.lit 'Z']

/-- `datetime.strptime(s, fmt)` returning `none` instead of raising. -/
def strptimeF (fmt : List Tok) (s : List Char) : Option PyDT :=
  match runFmt fmt s with
  | some ([y, mo, d, h, mi, sec], z) => buildDT y mo d h mi sec z
  | _ => none

/-- Convenience: the characters of a string literal. -/
def str (s : String) : List Char := s.data

/-! ### XML elements

An element is a tag, an ordered attribute list (Python `dict` semantics:
keys unique, first binding wins on lookup) and an ordered child list.
Per the XMLTV element model a guide document is the flat list of the root's
direct children, which is what `root.findall('channel')`,
`root.findall('.//programme')` etc. traverse. -/

inductive Elem where
  | mk (tag : String) (attrs : List (String × List Char)) (children : List Elem)

def Elem.tag : Elem → String
  | .mk t _ _ => t

def Elem.attrs : Elem → List (String × List Char)
  | .mk _ a _ => a

def Elem.children : Elem → List Elem
  | .mk _ _ c => c

/-- `e.attrib.get(k)` / `e.get(k)`. -/
def attr (e : Elem) (k : String) : Option (List Char) :=
  (e.attrs.find? (fun p => p.1 == k)).map Prod.snd

/-- `e.get(k, default)`. -/
def attrD (e : Elem) (k : String) (dflt : List Char) : List Char :=
  (attr e k).getD dflt

/-- `e.attrib.keys()`. -/
def keys (e : Elem) : List String := e.attrs.map Prod.fst

/-- `root.findall('channel')` over a flat document. -/
def channels (doc : List Elem) : List Elem := doc.filter (fun e => e.tag == "channel")

/-- `root.findall('.//programme')` over a flat document. -/
def progs (doc : List Elem) : List Elem := doc.filter (fun e => e.tag == "programme")

/-- `programme.get('channel', '')`. -/
def channelOf (p : Elem) : List Char := attrD p "channel" []

/-- The `id` attributes (with `''` default) of a document's channels. -/
def chanIds (doc : List Elem) : List (List Char) :=
  (channels doc).map (fun c => attrD c "id" [])

namespace Functions

/-! Definitions of `functions.py`. -/

/-- `get_datetime`: `strptime` with `DATE_FMT = "%Y%m%d%H%M%S %z"`, any
exception (unparsable string) turned into `None`. -/
def get_datetime (v : List Char) : Option PyDT := strptimeF FMT1 v

/-- `_round_time_to_nearest_five`: subtract `minute % 5` minutes and the
seconds, then add five minutes when the discarded amount is at least two
and a half minutes. -/
def _round_time_to_nearest_five : Option PyDT → Option PyDT
  | none => none
  | some dt =>
    let discard : Int := (dt.wall / 60 % 60 % 5) * 60 + dt.wall % 60
    some (PyDT.mk (dt.wall - discard + (if 150 ≤ discard then 300 else 0)) dt.tz)

/-- `round_time_to_nearest_five` (defined in the source, called nowhere). -/
def round_time_to_nearest_five (v : List Char) : Option PyDT :=
  _round_time_to_nearest_five (get_datetime v)

/-- `is_old_programme`: the programme's `stop` parses and is strictly before
`datetime.now().astimezone() - timedelta(days=1)`; `now` is passed
explicitly here.  A missing or unparsable `stop` yields `False`
(`stop and stop < one_day_ago` with `stop = None`). -/
def is_old_programme (now : PyDT) (p : Elem) : Except PyErr Bool :=
  match get_datetime (attrD p "stop" []) with
  | none => .ok false
  | some stop => pyLt stop (subS now 86400)

/-- `is_same_channel`: `a.attrib.get("channel") == b.attrib.get("channel")`. -/
def is_same_channel (a b : Elem) : Bool := attr a "channel" == attr b "channel"

/-- `strptime` as `is_overlap` calls it: raises `TypeError` on a missing
attribute (`None`) and `ValueError` on an unparsable string. -/
def strptimeE : Option (List Char) → Except PyErr PyDT
  | none => .error .typeError
  | some s =>
    match strptimeF FMT1 s with
    | some dt => .ok dt
    | none => .error .valueError

/-- `is_overlap`: parse all four endpoints with `DATE_FMT` (raising on
failure) and test `a.start < b.stop and a.stop > b.start` — a strict raw
overlap, with no tolerance. -/
def is_overlap (a b : Elem) : Except PyErr Bool := do
  let programme_start ← strptimeE (attr a "start")
  let programme_stop ← strptimeE (attr a "stop")
  let start_a ← strptimeE (attr b "start")
  let stop_b ← strptimeE (attr b "stop")
  let c1 ← pyLt programme_start stop_b
  if c1 then pyLt start_a programme_stop else pure false

/-- `attributes_match` of `functions.py`: equal key-set sizes; if both key
sets lie in `{id}`, require byte-equality of every attribute; otherwise
both key sets must lie in `{channel, start, stop}`, every key of the first
must occur in the second, the `channel` attributes must agree, and the
elements must `is_overlap`. -/
def attributes_match (existing element : Elem) : Except PyErr Bool :=
  if (keys existing).length ≠ (keys element).length then .ok false
  else if (keys existing).all (fun k => k ∈ ["id"]) ∧
          (keys element).all (fun k => k ∈ ["id"]) then
    .ok ((keys existing).all (fun k =>
      (keys element).contains k && attr existing k == attr element k))
  else if ¬ ((keys existing).all (fun k => k ∈ ["channel", "start", "stop"])) ∨
          ¬ ((keys element).all (fun k => k ∈ ["channel", "start", "stop"])) then
    .ok false
  else if ¬ ((keys existing).all (fun k => (keys element).contains k)) then
    .ok false
  else if ¬ is_same_channel existing element then
    .ok false
  else
    is_overlap existing element

/-- `element_exists_in_tree`: scan the root's children with the element's
tag for one whose attributes match. -/
def element_exists_in_tree (element : Elem) (doc : List Elem) : Except PyErr Bool :=
  go (doc.filter (fun e => e.tag == element.tag))
where
  go : List Elem → Except PyErr Bool
    | [] => .ok false
    | e :: rest => do
      let b ← attributes_match e element
      if b then pure true else go rest

/-- The merging loop of `merge_epgs` (the file I/O around it is elided):
for each element of the second (old) document, if a matching element
EXISTS in the main document, append it — unless it is a programme that is
old; elements with no match are dropped.  The main document grows while
the loop runs, as in the source, where `main_tree_root.append` mutates the
tree being searched. -/
def merge_epgs (now : PyDT) (mainDoc secondDoc : List Elem) : Except PyErr (List Elem) :=
  go mainDoc secondDoc
where
  go (acc : List Elem) : List Elem → Except PyErr (List Elem)
    | [] => .ok acc
    | e :: rest => do
      let b ← element_exists_in_tree e acc
      if b then
        if e.tag == "programme" then do
          let old ← is_old_programme now e
          if old then go acc rest else go (acc ++ [e]) rest
        else go (acc ++ [e]) rest
      else go acc rest

end Functions

namespace FetchEpg

/-! Definitions of `fetch_epg.py`. -/

/-- `attributes_match` of `fetch_epg.py`: equal key-set sizes, every key of
the first present in the second, `start` skipped, every other attribute —
including `stop` — byte-equal. -/
def attributes_match (existing element : Elem) : Bool :=
  (keys existing).length == (keys element).length &&
  (keys existing).all (fun k =>
    (keys element).contains k && (k == "start" || attr existing k == attr element k))

end FetchEpg

namespace Cacher

/-! Definitions of the `EPGCacher` class in `epg_cacher.py`.  The configured
tolerance `self.time_tolerance_minutes` (environment default 10 minutes)
enters as a parameter `tol` in seconds; `datetime.now()` enters as a
parameter. -/

/-- `parse_datetime`: empty/missing input is `None`; otherwise the format
fallbacks are tried in order, first success wins, exhaustion is `None`. -/
def parse_datetime (v : List Char) : Option PyDT :=
  if v = [] then none
  else match strptimeF FMT1 v with
  | some dt => some dt
  | none =>
    match strptimeF FMT2 v with
    | some dt => some dt
    | none =>
      match strptimeF FMT3 v with
      | some dt => some dt
      | none =>
        match strptimeF FMT4 v with
        | some dt => some dt
        | none => strptimeF FMT5 v

/-- `get_programme_time_range`. -/
def get_programme_time_range (p : Elem) : Option PyDT × Option PyDT :=
  (parse_datetime (attrD p "start" []), parse_datetime (attrD p "stop" []))

/-- `programmes_overlap`: `False` when any endpoint is missing or
unparsable; otherwise `start1 <= stop2 + tolerance and stop1 + tolerance
>= start2`, with Python's short-circuit `and` (the second comparison — and
any `TypeError` it could raise — is reached only when the first one is
true). -/
def programmes_overlap (tol : Int) (prog1 prog2 : Elem) : Except PyErr Bool :=
  match get_programme_time_range prog1, get_programme_time_range prog2 with
  | (some start1, some stop1), (some start2, some stop2) => do
    let c1 ← pyLe start1 (addS stop2 tol)
    if c1 then pyLe start2 (addS stop1 tol) else pure false
  | _, _ => .ok false

/-- The inline staleness test at the top of the `merge_missing_programmes`
loop: the old programme is skipped when its `start` parses and its
timezone-stripped wall clock is strictly before `datetime.now() -
timedelta(days=1)` (naive); an unparsable `start` is never skipped. -/
def skip_old_start (nowWall : Int) (p : Elem) : Bool :=
  match parse_datetime (attrD p "start" []) with
  | none => false
  | some st => decide (st.wall < nowWall - 86400)

/-- The distinct channels of a programme list in order of first occurrence
(Python `dict` insertion order). -/
def firstOccs (l : List (List Char)) : List (List Char) := go l []
where
  go : List (List Char) → List (List Char) → List (List Char)
    | [], _ => []
    | c :: rest, seen =>
      if seen.contains c then go rest seen else c :: go rest (c :: seen)

/-- The per-channel bucket of `xxx_programmes_by_channel`. -/
def bucket (doc : List Elem) (c : List Char) : List Elem :=
  (progs doc).filter (fun p => channelOf p == c)

/-- The inner `for new_programme in new_programmes` search: stop at the
first overlapping programme; exceptions propagate. -/
def anyOverlapM (tol : Int) (p : Elem) : List Elem → Except PyErr Bool
  | [] => .ok false
  | n :: rest => do
    let b ← programmes_overlap tol p n
    if b then pure true else anyOverlapM tol p rest

/-- The `for old_programme in old_programmes` body of
`merge_missing_programmes`, returning the programmes appended for one
channel, in order. -/
def mergeProgsChan (tol nowWall : Int) (newDoc : List Elem) : List Elem → Except PyErr (List Elem)
  | [] => .ok []
  | p :: rest =>
    if skip_old_start nowWall p then mergeProgsChan tol nowWall newDoc rest
    else do
      let found ← anyOverlapM tol p (bucket newDoc (channelOf p))
      let tailApp ← mergeProgsChan tol nowWall newDoc rest
      pure (if found then tailApp else p :: tailApp)

/-- The `for channel, old_programmes in old_programmes_by_channel.items()`
loop. -/
def mergeProgsChans (tol nowWall : Int) (newDoc oldDoc : List Elem) : List (List Char) → Except PyErr (List Elem)
  | [] => .ok []
  | c :: cs => do
    let a ← mergeProgsChan tol nowWall newDoc (bucket oldDoc c)
    let b ← mergeProgsChans tol nowWall newDoc oldDoc cs
    pure (a ++ b)

/-- `merge_missing_programmes`: bucket both documents by channel (buckets of
the new document are computed once, before anything is appended), then for
each non-stale old programme with no overlapping same-channel programme in
the new document, append it to the new root. -/
def merge_missing_programmes (tol nowWall : Int) (newDoc oldDoc : List Elem) : Except PyErr (List Elem) := do
  let appended ← mergeProgsChans tol nowWall newDoc oldDoc
      (firstOccs ((progs oldDoc).map channelOf))
  pure (newDoc ++ appended)

/-- `merge_missing_channels`: collect the non-empty channel ids of the new
document, then append every old channel whose id is non-empty and not
among them. -/
def merge_missing_channels (newDoc oldDoc : List Elem) : List Elem :=
  let newIds := (channels newDoc).filterMap (fun c =>
    let i := attrD c "id" []
    if i = [] then none else some i)
  newDoc ++ (channels oldDoc).filter (fun c =>
    let i := attrD c "id" []
    !(i == []) && !(newIds.contains i))

/-- `prog_id.split('_', 1)`: the part before the first separator, and the
part after it when the separator occurs. -/
def splitOnce (sep : Char) : List Char → List Char × Option (List Char)
  | [] => ([], none)
  | c :: cs =>
    if c = sep then ([], some cs)
    else
      let r := splitOnce sep cs
      (c :: r.1, r.2)

/-- The time comparison of `merge_programme_images`: strip the timezone from
each side that has one, then `abs(naive1 - naive2) <= tolerance`. -/
def image_time_match (tol : Int) (t1 t2 : PyDT) : Bool :=
  decide (|(stripTz t1).wall - (stripTz t2).wall| ≤ tol)

/-- The `for prog_id, images in image_map.items()` search: first entry whose
key starts with `epg2_channel + "_"` and whose recovered timestamp (the
part of the key after its first underscore) parses and lies within the
tolerance of the programme start; first match wins. -/
def lookup_images (tol : Int) (c2 : List Char) (t1 : PyDT) :
    List (List Char × List (List Char)) → Option (List (List Char))
  | [] => none
  | (pid, images) :: rest =>
    if (c2 ++ ['_']).isPrefixOf pid then
      match (splitOnce '_' pid).2 with
      | some r =>
        match parse_datetime r with
        | some t2 =>
          if image_time_match tol t1 t2 then some images
          else lookup_images tol c2 t1 rest
        | none => lookup_images tol c2 t1 rest
      | none => lookup_images tol c2 t1 rest
    else lookup_images tol c2 t1 rest

/-- Attach found images to a programme: drop the existing direct `icon`
children, then append one `icon` per image URL, the first one carrying the
fixed `width=300,height=200` hint. -/
def attach_images (images : List (List Char)) (p : Elem) : Elem :=
  Elem.mk p.tag p.attrs
    ((p.children.filter (fun c => !(c.tag == "icon"))) ++
      (images.enum.map (fun pr =>
        Elem.mk "icon"
          (("src", pr.2) :: (if pr.1 == 0 then [("width", str "300"), ("height", str "200")] else []))
          [])))

/-- The per-programme body of `merge_programme_images`: skip a programme
with a missing/empty or unparsable `start`; otherwise look its start up in
the image index under the mapped channel, and on a (non-empty) hit replace
the icons. -/
def process_programme (tol : Int) (imageMap : List (List Char × List (List Char)))
    (c2 : List Char) (p : Elem) : Elem :=
  if attrD p "start" [] = [] then p
  else
    match parse_datetime (attrD p "start" []) with
    | none => p
    | some t1 =>
      match lookup_images tol c2 t1 imageMap with
      | none => p
      | some images => if images.isEmpty then p else attach_images images p

/-- One channel-mapping entry of the `merge_programme_images` loop: an empty
secondary id is skipped; otherwise every programme whose `channel`
attribute equals the primary id is processed. -/
def process_entry (tol : Int) (imageMap : List (List Char × List (List Char)))
    (c1 c2 : List Char) (doc : List Elem) : List Elem :=
  if c2 = [] then doc
  else doc.map (fun e =>
    if e.tag == "programme" && (attr e "channel" == some c1) then
      process_programme tol imageMap c2 e
    else e)

/-- `merge_programme_images`: iterate the channel mapping (a `dict`: keys
unique, insertion order); the count of enriched programmes it returns is
not modelled, only the document transformation. -/
def merge_programme_images (tol : Int) (mapping : List (List Char × List Char))
    (imageMap : List (List Char × List (List Char))) (doc : List Elem) : List Elem :=
  mapping.foldl (fun d pr => process_entry tol imageMap pr.1 pr.2 d) doc

end Cacher

/-! ### Concrete elements used as witnesses and counterexamples -/

/-- A new-document programme, channel 5, 12:05–13:05 UTC. -/
def exPn : Elem :=
  .mk "programme" [("channel", str "5"), ("start", str "20240101120500 +0000"),
    ("stop", str "20240101130500 +0000")] []

/-- An old-document programme, channel 5, 12:00–13:00 UTC. -/
def exPo : Elem :=
  .mk "programme" [("channel", str "5"), ("start", str "20240101120000 +0000"),
    ("stop", str "20240101130000 +0000")] []

/-- An old-document programme on a channel absent from the new document. -/
def exPm : Elem :=
  .mk "programme" [("channel", str "7"), ("start", str "20240101120000 +0000"),
    ("stop", str "20240101130000 +0000")] []

/-- Channel 5, 13:05–14:00 UTC: separated from `exPo` by a five-minute gap,
so it overlaps `exPo` within the default ten-minute tolerance but does not
overlap it at all without tolerance. -/
def exPg : Elem :=
  .mk "programme" [("channel", str "5"), ("start", str "20240101130500 +0000"),
    ("stop", str "20240101140000 +0000")] []

/-- A programme whose `stop` does not parse. -/
def exPbad : Elem :=
  .mk "programme" [("channel", str "5"), ("start", str "20240101120000 +0000"),
    ("stop", str "bogus")] []

/-- An aware `datetime.now()`: 2024-01-01 12:00:00 UTC. -/
def exNow : PyDT := PyDT.mk 63839707200 (some 0)

/-- A channel element with an explicitly empty id. -/
def exChEmpty : Elem := .mk "channel" [("id", [])] []

/-- Channel elements with ids `a` and `b`. -/
def exChA : Elem := .mk "channel" [("id", str "a")] []

def exChB : Elem := .mk "channel" [("id", str "b")] []


/-- The document `[exChA, exPo]` used for the idempotence witness. -/
def exD : List Elem := [exChA, exPo]

/-- Like `exPn` but with a naive (timezone-less) `stop`. -/
def exPmixB : Elem :=
  .mk "programme" [("channel", str "5"), ("start", str "20240101120500 +0000"),
    ("stop", str "20240101130500")] []

/-- Like `exPo` but with `start` shifted by 3 minutes and `stop` by 1 minute:
`stop` rounds to the same 5-minute boundary as `exPo`'s. -/
def exC3b : Elem :=
  .mk "programme" [("channel", str "5"), ("start", str "20240101120300 +0000"),
    ("stop", str "20240101130100 +0000")] []

/-- A channel mapping sending primary channel `5` to secondary `news`. -/
def exMapping : List (List Char × List Char) := [(str "5", str "news")]

/-- An image index entry for `news` at 12:00:00+05:00 — five hours before
`exPo`'s start as an instant, but wall-clock equal to it. -/
def exImageMap : List (List Char × List (List Char)) :=
  [(str "news_20240101120000 +0500", [str "imgA"])]

/-- A channel mapping whose secondary id contains an underscore. -/
def exMappingUS : List (List Char × List Char) := [(str "5", str "a_b")]

/-- An image index entry keyed under the underscore channel, wall-clock
equal to `exPo`'s start. -/
def exImageMapUS : List (List Char × List (List Char)) :=
  [(str "a_b_20240101120000 +0000", [str "imgA"])]

/-! ### Parser lemmas -/

theorem grab2_some {s : List Char} {pr : Nat × List Char}
    (h : grab2 s = some pr) :
    ∃ c1 c2, s = c1 :: c2 :: pr.2 ∧ c1.isDigit = true ∧ c2.isDigit = true := by
  match s with
  | [] => simp [grab2] at h
  | [c1] => simp [grab2] at h
  | c1 :: c2 :: cs =>
    simp only [grab2] at h
    split at h
    · rename_i hd
      simp only [Bool.and_eq_true] at hd
      cases h
      exact ⟨c1, c2, rfl, hd.1, hd.2⟩
    · exact absurd h (by simp)

theorem grab4_some {s : List Char} {pr : Nat × List Char}
    (h : grab4 s = some pr) :
    ∃ c1 c2 c3 c4, s = c1 :: c2 :: c3 :: c4 :: pr.2 ∧ c1.isDigit = true ∧
      c2.isDigit = true ∧ c3.isDigit = true ∧ c4.isDigit = true := by
  match s with
  | [] => simp [grab4] at h
  | [c1] => simp [grab4] at h
  | [c1, c2] => simp [grab4] at h
  | [c1, c2, c3] => simp [grab4] at h
  | c1 :: c2 :: c3 :: c4 :: cs =>
    simp only [grab4] at h
    split at h
    · rename_i hd
      simp only [Bool.and_eq_true] at hd
      cases h
      exact ⟨c1, c2, c3, c4, rfl, hd.1.1.1, hd.1.1.2, hd.1.2, hd.2⟩
    · exact absurd h (by simp)

/-- A successful run of a format containing `%z` always yields an offset. -/
theorem runFmt_zone_isSome :
    ∀ (ts : List Tok) (s : List Char) (ns : List Nat) (z : Option Int),
      Tok.zone ∈ ts → runFmt ts s = some (ns, z) → z.isSome = true := by
  intro ts
  induction ts with
  | nil => intro s ns z hm; exact absurd hm (by simp)
  | cons t ts ih =>
    intro s ns z hm h
    have hmem : t = Tok.zone ∨ Tok.zone ∈ ts := by
      rcases List.mem_cons.mp hm with h1 | h1
      · exact Or.inl h1.symm
      · exact Or.inr h1
    cases t with
    | d4 =>
      simp only [runFmt, Option.bind_eq_some, Option.map_eq_some'] at h
      obtain ⟨pr, -, pr2, hr, heq⟩ := h
      have hz : z = pr2.2 := by
        have := congrArg Prod.snd heq
        simpa using this.symm
      have : Tok.zone ∈ ts := by
        rcases hmem with h1 | h1
        · exact absurd h1 (by simp)
        · exact h1
      exact hz ▸ ih pr.2 pr2.1 pr2.2 this (by rw [← hr])
    | d2 =>
      simp only [runFmt, Option.bind_eq_some, Option.map_eq_some'] at h
      obtain ⟨pr, -, pr2, hr, heq⟩ := h
      have hz : z = pr2.2 := by
        have := congrArg Prod.snd heq
        simpa using this.symm
      have : Tok.zone ∈ ts := by
        rcases hmem with h1 | h1
        · exact absurd h1 (by simp)
        · exact h1
      exact hz ▸ ih pr.2 pr2.1 pr2.2 this (by rw [← hr])
    | zone =>
      cases s with
      | nil => simp [runFmt] at h
      | cons c s' =>
        simp only [runFmt] at h
        split at h
        · simp only [Option.bind_eq_some] at h
          obtain ⟨ph, -, pm, -, h⟩ := h
          split at h
          · simp only [Option.map_eq_some'] at h
            obtain ⟨pr, -, heq⟩ := h
            have hz : z = some (zoneOff c ph.1 pm.1) := by
              have := congrArg Prod.snd heq
              simpa using this.symm
            rw [hz]; rfl
          · exact absurd h (by simp)
        · exact absurd h (by simp)
    | lit c =>
      cases s with
      | nil => simp [runFmt] at h
      | cons c' s' =>
        simp only [runFmt] at h
        split at h
        · have : Tok.zone ∈ ts := by
            rcases hmem with h1 | h1
            · exact absurd h1 (by simp)
            · exact h1
          exact ih s' ns z this h
        · exact absurd h (by simp)

/-- No directive of the formats in use can consume an underscore, so an
input containing `_` never parses. -/
theorem runFmt_us_none :
    ∀ (ts : List Tok) (s : List Char),
      (∀ c, Tok.lit c ∈ ts → c ≠ '_') → '_' ∈ s → runFmt ts s = none := by
  intro ts
  induction ts with
  | nil =>
    intro s _ hs
    cases s with
    | nil => exact absurd hs (by simp)
    | cons c s' => rfl
  | cons t ts ih =>
    intro s hlits hs
    have hlits' : ∀ c, Tok.lit c ∈ ts → c ≠ '_' :=
      fun c hc => hlits c (List.mem_cons_of_mem _ hc)
    cases t with
    | d4 =>
      simp only [runFmt]
      cases hg : grab4 s with
      | none => rfl
      | some pr =>
        obtain ⟨c1, c2, c3, c4, hshape, h1, h2, h3, h4⟩ := grab4_some hg
        rw [hshape] at hs
        simp only [List.mem_cons] at hs
        rcases hs with h | h | h | h | h
        · subst h; exact absurd h1 (by decide)
        · subst h; exact absurd h2 (by decide)
        · subst h; exact absurd h3 (by decide)
        · subst h; exact absurd h4 (by decide)
        · simp [ih pr.2 hlits' h]
    | d2 =>
      simp only [runFmt]
      cases hg : grab2 s with
      | none => rfl
      | some pr =>
        obtain ⟨c1, c2, hshape, h1, h2⟩ := grab2_some hg
        rw [hshape] at hs
        simp only [List.mem_cons] at hs
        rcases hs with h | h | h
        · subst h; exact absurd h1 (by decide)
        · subst h; exact absurd h2 (by decide)
        · simp [ih pr.2 hlits' h]
    | zone =>
      cases s with
      | nil => exact absurd hs (by simp)
      | cons c s' =>
        simp only [runFmt]
        by_cases hsign : c = '+' ∨ c = '-'
        · rw [if_pos hsign]
          have hs' : '_' ∈ s' := by
            simp only [List.mem_cons] at hs
            rcases hs with h | h
            · exfalso
              rcases hsign with h2 | h2 <;> rw [h2] at h <;> exact absurd h (by decide)
            · exact h
          cases hg : grab2 s' with
          | none => rfl
          | some ph =>
            obtain ⟨c1, c2, hshape, h1, h2⟩ := grab2_some hg
            rw [hshape] at hs'
            simp only [List.mem_cons] at hs'
            rcases hs' with h | h | h
            · subst h; exact absurd h1 (by decide)
            · subst h; exact absurd h2 (by decide)
            · cases hg2 : grab2 ph.2 with
              | none => simp [hg2]
              | some pm =>
                obtain ⟨d1, d2, hshape2, hd1, hd2⟩ := grab2_some hg2
                rw [hshape2] at h
                simp only [List.mem_cons] at h
                rcases h with h | h | h
                · subst h; exact absurd hd1 (by decide)
                · subst h; exact absurd hd2 (by decide)
                · simp [hg2, ih pm.2 hlits' h]
        · rw [if_neg hsign]
    | lit c =>
      cases s with
      | nil => exact absurd hs (by simp)
      | cons c' s' =>
        simp only [runFmt]
        by_cases hc : c' = c
        · rw [if_pos hc]
          have : '_' ∈ s' := by
            simp only [List.mem_cons] at hs
            rcases hs with h | h
            · exfalso
              have : c ≠ '_' := hlits c (by simp)
              rw [hc] at h
              exact this h.symm
            · exact h
          exact ih s' hlits' this
        · rw [if_neg hc]

/-- An input containing an underscore fails `strptime` for every format
whose literals avoid `_`. -/
theorem strptimeF_us_none {fmt : List Tok} {s : List Char}
    (hf : ∀ c, Tok.lit c ∈ fmt → c ≠ '_') (hs : '_' ∈ s) :
    strptimeF fmt s = none := by
  simp [strptimeF, runFmt_us_none fmt s hf hs]

/-- `parse_datetime` rejects every string containing an underscore: none of
the five fallback formats can match one. -/
theorem parse_datetime_us_none {s : List Char} (hs : '_' ∈ s) :
    Cacher.parse_datetime s = none := by
  have l1 : ∀ c, Tok.lit c ∈ FMT1 → c ≠ '_' := by
    intro c hc heq; subst heq; revert hc; decide
  have l2 : ∀ c, Tok.lit c ∈ FMT2 → c ≠ '_' := by
    intro c hc heq; subst heq; revert hc; decide
  have l3 : ∀ c, Tok.lit c ∈ FMT3 → c ≠ '_' := by
    intro c hc heq; subst heq; revert hc; decide
  have l4 : ∀ c, Tok.lit c ∈ FMT4 → c ≠ '_' := by
    intro c hc heq; subst heq; revert hc; decide
  have l5 : ∀ c, Tok.lit c ∈ FMT5 → c ≠ '_' := by
    intro c hc heq; subst heq; revert hc; decide
  unfold Cacher.parse_datetime
  rw [strptimeF_us_none l1 hs, strptimeF_us_none l2 hs, strptimeF_us_none l3 hs,
    strptimeF_us_none l4 hs, strptimeF_us_none l5 hs]
  simp

/-- A successful `"%Y%m%d%H%M%S %z"` parse is always timezone-aware. -/
theorem strptimeF_fmt1_aware {s : List Char} {dt : PyDT}
    (h : strptimeF FMT1 s = some dt) : ∃ z, dt.tz = some z := by
  unfold strptimeF at h
  cases hr : runFmt FMT1 s with
  | none => rw [hr] at h; exact absurd h (by simp)
  | some pr =>
    obtain ⟨ns, zo⟩ := pr
    rw [hr] at h
    have hz : zo.isSome = true :=
      runFmt_zone_isSome FMT1 s ns zo (by decide) (by rw [hr])
    obtain ⟨z, hz⟩ := Option.isSome_iff_exists.mp hz
    subst hz
    match ns with
    | [] => exact absurd h (by simp)
    | [a] => exact absurd h (by simp)
    | [a, b] => exact absurd h (by simp)
    | [a, b, c] => exact absurd h (by simp)
    | [a, b, c, d] => exact absurd h (by simp)
    | [a, b, c, d, e] => exact absurd h (by simp)
    | [a, b, c, d, e, f] =>
      refine ⟨z, ?_⟩
      simp only [] at h
      unfold buildDT at h
      split at h
      · cases h; rfl
      · exact absurd h (by simp)
    | a :: b :: c :: d :: e :: f :: g :: rest => exact absurd h (by simp)

/-! ### Comparison and overlap helper lemmas -/

theorem pyLe_aware {a b : PyDT} {x y : Int} (ha : a.tz = some x) (hb : b.tz = some y) :
    pyLe a b = .ok (decide (a.inst ≤ b.inst)) := by
  unfold pyLe
  rw [ha, hb]
  simp [PyDT.inst, ha, hb]

theorem pyLt_aware {a b : PyDT} {x y : Int} (ha : a.tz = some x) (hb : b.tz = some y) :
    pyLt a b = .ok (decide (a.inst < b.inst)) := by
  unfold pyLt
  rw [ha, hb]
  simp [PyDT.inst, ha, hb]

theorem pyLe_mix1 {a b : PyDT} {x : Int} (ha : a.tz = some x) (hb : b.tz = none) :
    pyLe a b = .error .typeError := by
  unfold pyLe; rw [ha, hb]

theorem pyLe_mix2 {a b : PyDT} {y : Int} (ha : a.tz = none) (hb : b.tz = some y) :
    pyLe a b = .error .typeError := by
  unfold pyLe; rw [ha, hb]

theorem addS_inst (t : PyDT) (k : Int) {z : Int} (h : t.tz = some z) :
    (addS t k).inst = t.inst + k := by
  simp [addS, PyDT.inst, h]
  ring

/-- `programmes_overlap` is `False` (without error) whenever an endpoint
fails to parse. -/
theorem programmes_overlap_unparsable {tol : Int} {p1 p2 : Elem}
    (h : Cacher.parse_datetime (attrD p1 "start" []) = none ∨
         Cacher.parse_datetime (attrD p1 "stop" []) = none ∨
         Cacher.parse_datetime (attrD p2 "start" []) = none ∨
         Cacher.parse_datetime (attrD p2 "stop" []) = none) :
    Cacher.programmes_overlap tol p1 p2 = .ok false := by
  unfold Cacher.programmes_overlap Cacher.get_programme_time_range
  rcases h with h | h | h | h <;> rw [h] <;>
    first
    | rfl
    | (cases Cacher.parse_datetime (attrD p1 "start" []) <;>
        cases Cacher.parse_datetime (attrD p1 "stop" []) <;>
        cases Cacher.parse_datetime (attrD p2 "start" []) <;>
        cases Cacher.parse_datetime (attrD p2 "stop" []) <;> rfl)

/-- With all four endpoints parsed and timezone-aware, `programmes_overlap`
decides the closed tolerance formula on instants. -/
theorem programmes_overlap_aware {tol : Int} {p1 p2 : Elem} {s1 t1 s2 t2 : PyDT}
    {z1 w1 z2 w2 : Int}
    (h1 : Cacher.parse_datetime (attrD p1 "start" []) = some s1)
    (h2 : Cacher.parse_datetime (attrD p1 "stop" []) = some t1)
    (h3 : Cacher.parse_datetime (attrD p2 "start" []) = some s2)
    (h4 : Cacher.parse_datetime (attrD p2 "stop" []) = some t2)
    (hz1 : s1.tz = some z1) (hw1 : t1.tz = some w1)
    (hz2 : s2.tz = some z2) (hw2 : t2.tz = some w2) :
    Cacher.programmes_overlap tol p1 p2 =
      .ok (decide (s1.inst ≤ t2.inst + tol ∧ s2.inst ≤ t1.inst + tol)) := by
  unfold Cacher.programmes_overlap Cacher.get_programme_time_range
  rw [h1, h2, h3, h4]
  have e1 : pyLe s1 (addS t2 tol) = .ok (decide (s1.inst ≤ t2.inst + tol)) := by
    rw [pyLe_aware hz1 (show (addS t2 tol).tz = some w2 by simpa [addS] using hw2),
      addS_inst t2 tol hw2]
  have e2 : pyLe s2 (addS t1 tol) = .ok (decide (s2.inst ≤ t1.inst + tol)) := by
    rw [pyLe_aware hz2 (show (addS t1 tol).tz = some w1 by simpa [addS] using hw1),
      addS_inst t1 tol hw1]
  by_cases hA : s1.inst ≤ t2.inst + tol
  · by_cases hB : s2.inst ≤ t1.inst + tol <;>
      simp [e1, e2, hA, hB, Bind.bind, Except.bind]
  · simp [e1, hA, Bind.bind, Except.bind]
    rfl

/-- With the first compared pair of endpoints of mixed awareness,
`programmes_overlap` raises `TypeError` instead of comparing. -/
theorem programmes_overlap_mixed {tol : Int} {p1 p2 : Elem} {s1 t1 s2 t2 : PyDT}
    (h1 : Cacher.parse_datetime (attrD p1 "start" []) = some s1)
    (h2 : Cacher.parse_datetime (attrD p1 "stop" []) = some t1)
    (h3 : Cacher.parse_datetime (attrD p2 "start" []) = some s2)
    (h4 : Cacher.parse_datetime (attrD p2 "stop" []) = some t2)
    (hmix : s1.tz.isSome ≠ t2.tz.isSome) :
    Cacher.programmes_overlap tol p1 p2 = .error .typeError := by
  unfold Cacher.programmes_overlap Cacher.get_programme_time_range
  rw [h1, h2, h3, h4]
  have : pyLe s1 (addS t2 tol) = .error .typeError := by
    cases hs : s1.tz with
    | none =>
      cases ht : t2.tz with
      | none => rw [hs, ht] at hmix; simp at hmix
      | some w => exact pyLe_mix2 hs (show (addS t2 tol).tz = some w by simpa [addS] using ht)
    | some z =>
      cases ht : t2.tz with
      | none => exact pyLe_mix1 hs (show (addS t2 tol).tz = none by simpa [addS] using ht)
      | some w => rw [hs, ht] at hmix; simp at hmix
  simp [this, Bind.bind, Except.bind]

/-! ### Self-merge lemmas -/

theorem anyOverlapM_ok_true {tol : Int} {p : Elem} :
    ∀ l : List Elem,
      (∀ N ∈ l, ∃ b, Cacher.programmes_overlap tol p N = .ok b) →
      (∃ N ∈ l, Cacher.programmes_overlap tol p N = .ok true) →
      Cacher.anyOverlapM tol p l = .ok true := by
  intro l
  induction l with
  | nil => intro _ hex; simp at hex
  | cons n rest ih =>
    intro hall hex
    obtain ⟨b, hb⟩ := hall n (by simp)
    cases b with
    | true =>
      simp [Cacher.anyOverlapM, hb, Bind.bind, Except.bind, Pure.pure, Except.pure]
    | false =>
      simp only [Cacher.anyOverlapM, hb, Bind.bind, Except.bind]
      simp only [if_neg (by simp : ¬ (false = true))]
      apply ih (fun N hN => hall N (List.mem_cons_of_mem _ hN))
      obtain ⟨N, hN, hNt⟩ := hex
      rcases List.mem_cons.mp hN with h | h
      · subst h; rw [hNt] at hb; exact absurd (Except.ok.inj hb) (by simp)
      · exact ⟨N, h, hNt⟩

theorem bucket_mem {doc : List Elem} {c : List Char} {p : Elem} :
    p ∈ Cacher.bucket doc c ↔ p ∈ progs doc ∧ channelOf p = c := by
  simp [Cacher.bucket, List.mem_filter]

theorem mergeProgsChan_self {tol nw : Int} {D : List Elem}
    (H : ∀ p ∈ progs D, ∃ s t z w,
      Cacher.parse_datetime (attrD p "start" []) = some s ∧
      Cacher.parse_datetime (attrD p "stop" []) = some t ∧
      s.tz = some z ∧ t.tz = some w ∧ s.inst ≤ t.inst + tol) :
    ∀ l : List Elem, (∀ p ∈ l, p ∈ progs D) →
      Cacher.mergeProgsChan tol nw D l = .ok [] := by
  intro l
  induction l with
  | nil => intro _; rfl
  | cons p rest ih =>
    intro hmem
    have hp : p ∈ progs D := hmem p (by simp)
    have ihr := ih (fun q hq => hmem q (List.mem_cons_of_mem _ hq))
    by_cases hsk : Cacher.skip_old_start nw p = true
    · simp [Cacher.mergeProgsChan, hsk, ihr]
    · obtain ⟨s, t, z, w, hps, hpt, hzs, hzt, hle⟩ := H p hp
      have hany : Cacher.anyOverlapM tol p (Cacher.bucket D (channelOf p)) = .ok true := by
        apply anyOverlapM_ok_true
        · intro N hN
          obtain ⟨s2, t2, z2, w2, hps2, hpt2, hzs2, hzt2, -⟩ :=
            H N (bucket_mem.mp hN).1
          exact ⟨_, programmes_overlap_aware hps hpt hps2 hpt2 hzs hzt hzs2 hzt2⟩
        · refine ⟨p, bucket_mem.mpr ⟨hp, rfl⟩, ?_⟩
          rw [programmes_overlap_aware hps hpt hps hpt hzs hzt hzs hzt]
          simp [hle]
      simp [Cacher.mergeProgsChan, hsk, hany, ihr, Bind.bind, Except.bind,
        Pure.pure, Except.pure]

theorem mergeProgsChans_self {tol nw : Int} {D : List Elem}
    (H : ∀ p ∈ progs D, ∃ s t z w,
      Cacher.parse_datetime (attrD p "start" []) = some s ∧
      Cacher.parse_datetime (attrD p "stop" []) = some t ∧
      s.tz = some z ∧ t.tz = some w ∧ s.inst ≤ t.inst + tol) :
    ∀ cs : List (List Char), Cacher.mergeProgsChans tol nw D D cs = .ok [] := by
  intro cs
  induction cs with
  | nil => rfl
  | cons c cs ih =>
    have h1 : Cacher.mergeProgsChan tol nw D (Cacher.bucket D c) = .ok [] :=
      mergeProgsChan_self H _ (fun p hp => (bucket_mem.mp hp).1)
    simp [Cacher.mergeProgsChans, h1, ih, Bind.bind, Except.bind, Pure.pure, Except.pure]

theorem merge_missing_channels_self (D : List Elem) :
    Cacher.merge_missing_channels D D = D := by
  simp only [Cacher.merge_missing_channels]
  have hfilter : (channels D).filter (fun c =>
      !(attrD c "id" [] == []) &&
      !(((channels D).filterMap (fun c =>
        if attrD c "id" [] = [] then none else some (attrD c "id" []))).contains
          (attrD c "id" []))) = [] := by
    rw [List.filter_eq_nil_iff]
    intro c hc hcond
    simp only [Bool.and_eq_true, Bool.not_eq_true', beq_eq_false_iff_ne, ne_eq] at hcond
    obtain ⟨h1, h2⟩ := hcond
    have hmem : attrD c "id" [] ∈ (channels D).filterMap (fun c =>
        if attrD c "id" [] = [] then none else some (attrD c "id" [])) :=
      List.mem_filterMap.mpr ⟨c, hc, by simp [h1]⟩
    have := List.elem_eq_true_of_mem hmem
    rw [show (List.filterMap (fun c => if attrD c "id" [] = [] then none
        else some (attrD c "id" [])) (channels D)).contains (attrD c "id" []) =
        List.elem (attrD c "id" [])
          (List.filterMap (fun c => if attrD c "id" [] = [] then none
            else some (attrD c "id" [])) (channels D)) from rfl, this] at h2
    exact absurd h2 (by simp)
  rw [hfilter, List.append_nil]

/-! ### Claim C7 -/

/-- C7 (amended): merging a document with itself as the old document appends
no channels, and — provided every programme's `start` and `stop` parse to
timezone-aware instants with `start ≤ stop + tolerance`, so that each
programme overlap-matches itself — appends no programmes either: the
merged document equals the original exactly (hence as a set of Channel and
Programme identities).  Without that proviso a programme that fails to
match itself (e.g. one with an unparsable endpoint) is re-appended and
duplicated. -/
theorem merge_with_self_is_identity (tol nw : Int) (D : List Elem)
    (H : ∀ p ∈ progs D, ∃ s t z w,
      Cacher.parse_datetime (attrD p "start" []) = some s ∧
      Cacher.parse_datetime (attrD p "stop" []) = some t ∧
      s.tz = some z ∧ t.tz = some w ∧ s.inst ≤ t.inst + tol) :
    Cacher.merge_missing_channels D D = D ∧
    Cacher.merge_missing_programmes tol nw D D = .ok D := by
  refine ⟨merge_missing_channels_self D, ?_⟩
  unfold Cacher.merge_missing_programmes
  rw [mergeProgsChans_self H]
  simp [Bind.bind, Except.bind, Pure.pure, Except.pure]

/-- C7 counterexample: a document consisting of one programme whose `stop`
does not parse is not idempotent under merge — the programme fails to
overlap-match itself, is re-appended, and its identity is duplicated. -/
theorem merge_with_self_duplicates :
    Cacher.merge_missing_programmes 600 63839707200 [exPbad] [exPbad] =
      .ok [exPbad, exPbad] ∧ [exPbad, exPbad] ≠ [exPbad] := by
  refine ⟨by rfl, fun h => ?_⟩
  simpa using congrArg List.length h

/-- C7 witness: the two-element document `exD` (one channel, one
well-formed programme) merged with itself is returned unchanged. -/
theorem merge_with_self_is_identity_witness :
    Cacher.merge_missing_channels exD exD = exD ∧
    Cacher.merge_missing_programmes 600 63839707200 exD exD = .ok exD := by
  apply merge_with_self_is_identity
  intro p hp
  have hpe : p = exPo := by
    have hpr : progs exD = [exPo] := rfl
    rw [hpr] at hp
    simpa using hp
  subst hpe
  exact ⟨PyDT.mk 63839707200 (some 0), PyDT.mk 63839710800 (some 0), 0, 0, rfl, rfl,
    rfl, rfl, by decide⟩

/-! ### Claim C1 -/

/-- C1 (code evaluation at the failing input): `functions.py`'s `merge_epgs`
inverts the claimed condition.  `exPo` (channel 5, 12:00–13:00) overlaps
`exPn` (channel 5, 12:05–13:05) in the new document, i.e. a match exists,
yet `merge_epgs` appends it, keeping both programmes of the pair; and
`exPm`, which matches nothing in the new document (different channel), is
dropped instead of appended.  (`merge_missing_programmes` in
`epg_cacher.py` and `merge_epgs` in `fetch_epg.py` implement the claimed
append-iff-no-match behaviour; the `functions.py` variant lost the `not`.) -/
theorem merge_epgs_keeps_both_of_matching_pair :
    Functions.merge_epgs exNow [exPn] [exPo] = .ok [exPn, exPo] ∧
    Functions.merge_epgs exNow [exPn] [exPm] = .ok [exPn] := by
  exact ⟨by rfl, by rfl⟩

/-! ### Claim C2 -/

theorem strptimeE_aware {v : Option (List Char)} {dt : PyDT}
    (h : Functions.strptimeE v = .ok dt) : ∃ z, dt.tz = some z := by
  cases v with
  | none => exact absurd h (by simp [Functions.strptimeE])
  | some s =>
    cases hm : strptimeF FMT1 s with
    | none => simp [Functions.strptimeE, hm] at h
    | some dt' =>
      simp only [Functions.strptimeE, hm, Except.ok.injEq] at h
      subst h
      exact strptimeF_fmt1_aware hm

theorem functions_is_overlap_aware {a b : Elem} {S1 T1 S2 T2 : PyDT}
    (e1 : Functions.strptimeE (attr a "start") = .ok S1)
    (e2 : Functions.strptimeE (attr a "stop") = .ok T1)
    (e3 : Functions.strptimeE (attr b "start") = .ok S2)
    (e4 : Functions.strptimeE (attr b "stop") = .ok T2) :
    Functions.is_overlap a b =
      .ok (decide (S1.inst < T2.inst) && decide (S2.inst < T1.inst)) := by
  obtain ⟨z1, hz1⟩ := strptimeE_aware e1
  obtain ⟨w1, hw1⟩ := strptimeE_aware e2
  obtain ⟨z2, hz2⟩ := strptimeE_aware e3
  obtain ⟨w2, hw2⟩ := strptimeE_aware e4
  unfold Functions.is_overlap
  rw [e1, e2, e3, e4]
  simp only [Bind.bind, Except.bind]
  rw [pyLt_aware hz1 hw2]
  by_cases hA : S1.inst < T2.inst
  · simp [hA, pyLt_aware hz2 hw1]
  · simp [hA, Pure.pure, Except.pure]

theorem functions_attributes_match_eq {a b : Elem} {S1 T1 S2 T2 : PyDT}
    (ka : (keys a).Perm ["channel", "start", "stop"])
    (kb : (keys b).Perm ["channel", "start", "stop"])
    (e1 : Functions.strptimeE (attr a "start") = .ok S1)
    (e2 : Functions.strptimeE (attr a "stop") = .ok T1)
    (e3 : Functions.strptimeE (attr b "start") = .ok S2)
    (e4 : Functions.strptimeE (attr b "stop") = .ok T2) :
    Functions.attributes_match a b =
      .ok ((attr a "channel" == attr b "channel") &&
        (decide (S1.inst < T2.inst) && decide (S2.inst < T1.inst))) := by
  unfold Functions.attributes_match
  rw [if_neg (by rw [ka.length_eq, kb.length_eq]; simp)]
  rw [if_neg ?hid]
  case hid =>
    intro hand
    have h1 := List.all_eq_true.mp hand.1 "channel" (ka.mem_iff.mpr (by simp))
    simp at h1
  rw [if_neg ?hkc]
  case hkc =>
    intro hor
    have hall : ∀ (l : List String), l.Perm ["channel", "start", "stop"] →
        l.all (fun k => decide (k ∈ ["channel", "start", "stop"])) = true := by
      intro l hperm
      rw [List.all_eq_true]
      intro k hk
      simp only [decide_eq_true_eq]
      exact hperm.mem_iff.mp hk
    rcases hor with h | h
    · exact h (hall _ ka)
    · exact h (hall _ kb)
  rw [if_neg ?hsub]
  case hsub =>
    intro hnall
    apply hnall
    rw [List.all_eq_true]
    intro k hk
    exact List.elem_eq_true_of_mem (kb.mem_iff.mpr (ka.mem_iff.mp hk))
  by_cases hch : Functions.is_same_channel a b = true
  · rw [if_neg (by simp [hch]), functions_is_overlap_aware e1 e2 e3 e4]
    have hbeq : (attr a "channel" == attr b "channel") = true := hch
    rw [hbeq]
    simp
  · rw [if_pos (by simp [hch])]
    have hbeq : (attr a "channel" == attr b "channel") = false := by
      simpa [Functions.is_same_channel] using hch
    rw [hbeq]
    simp

/-- C2 (amended): with both key-sets exactly `{channel, start, stop}` and all
four endpoints parsed, the two mode-2 matchers diverge.  `epg_cacher.py`'s
`programmes_overlap` decides the claimed tolerance formula
`start1 ≤ stop2 + tol ∧ start2 ≤ stop1 + tol` on instants (channel
equality being enforced by the per-channel bucketing of
`merge_missing_programmes`, whose buckets hold exactly the same-channel
programmes); `functions.py`'s `attributes_match` instead requires `channel`
byte-equality together with *strict raw* overlap `start1 < stop2 ∧ start2
< stop1`, with no tolerance. -/
theorem mode2_match_formula (tol : Int) (p1 p2 : Elem) (S1 T1 S2 T2 : PyDT)
    (ka : (keys p1).Perm ["channel", "start", "stop"])
    (kb : (keys p2).Perm ["channel", "start", "stop"])
    (e1 : Functions.strptimeE (attr p1 "start") = .ok S1)
    (e2 : Functions.strptimeE (attr p1 "stop") = .ok T1)
    (e3 : Functions.strptimeE (attr p2 "start") = .ok S2)
    (e4 : Functions.strptimeE (attr p2 "stop") = .ok T2)
    (d1 : Cacher.parse_datetime (attrD p1 "start" []) = some S1)
    (d2 : Cacher.parse_datetime (attrD p1 "stop" []) = some T1)
    (d3 : Cacher.parse_datetime (attrD p2 "start" []) = some S2)
    (d4 : Cacher.parse_datetime (attrD p2 "stop" []) = some T2) :
    Cacher.programmes_overlap tol p1 p2 =
      .ok (decide (S1.inst ≤ T2.inst + tol ∧ S2.inst ≤ T1.inst + tol)) ∧
    (∀ doc c, p2 ∈ Cacher.bucket doc c ↔ p2 ∈ progs doc ∧ channelOf p2 = c) ∧
    Functions.attributes_match p1 p2 =
      .ok ((attr p1 "channel" == attr p2 "channel") &&
        (decide (S1.inst < T2.inst) && decide (S2.inst < T1.inst))) := by
  obtain ⟨z1, hz1⟩ := strptimeE_aware e1
  obtain ⟨w1, hw1⟩ := strptimeE_aware e2
  obtain ⟨z2, hz2⟩ := strptimeE_aware e3
  obtain ⟨w2, hw2⟩ := strptimeE_aware e4
  exact ⟨programmes_overlap_aware d1 d2 d3 d4 hz1 hw1 hz2 hw2,
    fun doc c => bucket_mem,
    functions_attributes_match_eq ka kb e1 e2 e3 e4⟩

/-- C2 counterexample: `exPo` (12:00–13:00) and `exPg` (13:05–14:00) on the
same channel have key-sets exactly `{channel, start, stop}`, all endpoints
parse, and they satisfy the claimed tolerance formula at the default
10-minute tolerance (`programmes_overlap` returns true) — yet the
`functions.py` mode-2 match returns false, refuting the claimed
if-and-only-if for that matcher. -/
theorem mode2_match_formula_counterexample :
    Functions.attributes_match exPo exPg = .ok false ∧
    Cacher.programmes_overlap 600 exPo exPg = .ok true ∧
    (attr exPo "channel" == attr exPg "channel") = true := by
  exact ⟨by rfl, by rfl, by rfl⟩

/-- C2 witness: the amended theorem applied to `exPo` and `exPg`. -/
theorem mode2_match_formula_witness :
    Cacher.programmes_overlap 600 exPo exPg =
      .ok (decide ((PyDT.mk 63839707200 (some 0)).inst ≤
          (PyDT.mk 63839714400 (some 0)).inst + 600 ∧
        (PyDT.mk 63839711100 (some 0)).inst ≤
          (PyDT.mk 63839710800 (some 0)).inst + 600)) ∧
    (∀ doc c, exPg ∈ Cacher.bucket doc c ↔ exPg ∈ progs doc ∧ channelOf exPg = c) ∧
    Functions.attributes_match exPo exPg =
      .ok ((attr exPo "channel" == attr exPg "channel") &&
        (decide ((PyDT.mk 63839707200 (some 0)).inst < (PyDT.mk 63839714400 (some 0)).inst) &&
         decide ((PyDT.mk 63839711100 (some 0)).inst < (PyDT.mk 63839710800 (some 0)).inst))) :=
  mode2_match_formula 600 exPo exPg _ _ _ _ (by decide) (by decide)
    rfl rfl rfl rfl rfl rfl rfl rfl

/-! ### Claim C3 -/

/-- C3 (amended): for elements with identical attribute key-sets, the mode-1
matcher (`attributes_match` in `fetch_epg.py`) returns true iff every
attribute other than `start` — *including* `stop` — is byte-equal; `start`
is always ignored.  No 5-minute rounding is applied to `stop`:
`round_time_to_nearest_five` is defined in `functions.py` but never
called. -/
theorem mode1_match_iff (a b : Elem) (h : keys a = keys b) :
    FetchEpg.attributes_match a b = true ↔
      ∀ k ∈ keys a, k = "start" ∨ attr a k = attr b k := by
  unfold FetchEpg.attributes_match
  rw [h]
  simp only [beq_self_eq_true, Bool.true_and, List.all_eq_true, Bool.and_eq_true,
    Bool.or_eq_true, beq_iff_eq]
  constructor
  · intro H k hk
    exact (H k hk).2
  · intro H k hk
    exact ⟨List.elem_eq_true_of_mem hk, H k hk⟩

/-- C3 counterexample: `exPo` and `exC3b` have identical key-sets, byte-equal
`channel`, and `stop` values that round to the same 5-minute boundary
(13:00:00 and 13:01:00), so the claimed matcher would accept them — but
the mode-1 matcher compares `stop` byte-wise and rejects. -/
theorem mode1_match_counterexample :
    FetchEpg.attributes_match exPo exC3b = false ∧
    keys exPo = keys exC3b ∧
    attr exPo "channel" = attr exC3b "channel" ∧
    Functions.round_time_to_nearest_five (attrD exPo "stop" []) =
      Functions.round_time_to_nearest_five (attrD exC3b "stop" []) ∧
    Functions.round_time_to_nearest_five (attrD exPo "stop" []) ≠ none := by
  refine ⟨by rfl, by rfl, by rfl, by rfl, ?_⟩
  intro h
  rw [show Functions.round_time_to_nearest_five (attrD exPo "stop" []) =
    some (PyDT.mk 63839710800 (some 0)) from rfl] at h
  exact absurd h (by simp)

/-- C3 witness: the amended characterisation applied to `exPo` and `exC3b`. -/
theorem mode1_match_iff_witness :
    FetchEpg.attributes_match exPo exC3b = true ↔
      ∀ k ∈ keys exPo, k = "start" ∨ attr exPo k = attr exC3b k :=
  mode1_match_iff exPo exC3b rfl

/-! ### Claim C4 -/

theorem contains_false_of_not_mem {l : List (List Char)} {a : List Char}
    (h : a ∉ l) : l.contains a = false := by
  cases hc : l.contains a with
  | false => rfl
  | true => exact absurd (List.mem_of_elem_eq_true hc) h

theorem mem_newIds_iff {newDoc : List Elem} {x : List Char} :
    x ∈ (channels newDoc).filterMap (fun c =>
      if attrD c "id" [] = [] then none else some (attrD c "id" [])) ↔
    x ≠ [] ∧ x ∈ chanIds newDoc := by
  rw [List.mem_filterMap]
  constructor
  · rintro ⟨c, hc, heq⟩
    by_cases he : attrD c "id" [] = []
    · rw [if_pos he] at heq; exact absurd heq (by simp)
    · rw [if_neg he] at heq
      obtain rfl : attrD c "id" [] = x := by simpa using heq
      exact ⟨he, List.mem_map_of_mem _ hc⟩
  · rintro ⟨hne, hmem⟩
    obtain ⟨c, hc, rfl⟩ := List.mem_map.mp hmem
    exact ⟨c, hc, by rw [if_neg hne]⟩

theorem count_filter_ids (i : List Char) (ids : List (List Char))
    (hine : i ≠ []) (hni : ids.contains i = false) :
    ∀ l : List Elem, (l.map (fun c => attrD c "id" [])).Nodup →
      i ∈ l.map (fun c => attrD c "id" []) →
      ((l.filter (fun c =>
          !(attrD c "id" [] == []) && !(ids.contains (attrD c "id" [])))).map
        (fun c => attrD c "id" [])).count i = 1 := by
  intro l
  induction l with
  | nil => intro _ hm; simp at hm
  | cons c rest ih =>
    intro hnd hm
    simp only [List.map_cons, List.nodup_cons] at hnd
    by_cases hc : attrD c "id" [] = i
    · have hpred : (!(attrD c "id" [] == []) &&
          !(ids.contains (attrD c "id" []))) = true := by
        rw [hc, hni]
        simp [hine]
      have hz : ((rest.filter (fun c =>
          !(attrD c "id" [] == []) && !(ids.contains (attrD c "id" [])))).map
        (fun c => attrD c "id" [])).count i = 0 := by
        rw [List.count_eq_zero]
        intro hmem
        obtain ⟨c', hc', he⟩ := List.mem_map.mp hmem
        have : c' ∈ rest := List.mem_of_mem_filter hc'
        exact hnd.1 (hc ▸ he ▸ List.mem_map_of_mem _ this)
      rw [List.filter_cons, if_pos hpred, List.map_cons, List.count_cons, hz, hc]
      simp
    · have hm' : i ∈ rest.map (fun c => attrD c "id" []) := by
        rcases List.mem_cons.mp hm with h | h
        · exact absurd h.symm hc
        · exact h
      have htail := ih hnd.2 hm'
      by_cases hp : (!(attrD c "id" [] == []) &&
          !(ids.contains (attrD c "id" []))) = true
      · rw [List.filter_cons, if_pos hp, List.map_cons, List.count_cons, htail,
          if_neg (fun h => hc (by simpa using h))]
      · rw [List.filter_cons, if_neg hp]
        exact htail

/-- C4 (amended): for every *non-empty* Channel id present in the old
document and absent from the new document's Channel ids,
`merge_missing_channels` appends that Channel, and — the old document's
Channel ids being unique, per the document invariant — the id occurs
exactly once among the merged document's Channels; if the new document's
Channel ids are also unique, uniqueness of Channel ids is preserved by the
merge.  (A Channel whose id is the empty string, or that lacks an `id`
attribute, is never carried forward.) -/
theorem channel_carry_forward_unique (newDoc oldDoc : List Elem) (i : List Char)
    (h0 : i ≠ []) (h1 : i ∈ chanIds oldDoc) (h2 : i ∉ chanIds newDoc)
    (h3 : (chanIds oldDoc).Nodup) :
    (chanIds (Cacher.merge_missing_channels newDoc oldDoc)).count i = 1 ∧
    ((chanIds newDoc).Nodup →
      (chanIds (Cacher.merge_missing_channels newDoc oldDoc)).Nodup) := by
  have hni : ((channels newDoc).filterMap (fun c =>
      if attrD c "id" [] = [] then none else some (attrD c "id" []))).contains i = false := by
    apply contains_false_of_not_mem
    intro hmem
    exact h2 (mem_newIds_iff.mp hmem).2
  have hsplit : chanIds (Cacher.merge_missing_channels newDoc oldDoc) =
      chanIds newDoc ++ ((channels oldDoc).filter (fun c =>
        !(attrD c "id" [] == []) &&
        !(((channels newDoc).filterMap (fun c =>
          if attrD c "id" [] = [] then none else some (attrD c "id" []))).contains
            (attrD c "id" [])))).map (fun c => attrD c "id" []) := by
    simp only [Cacher.merge_missing_channels, chanIds, channels, List.filter_append,
      List.map_append]
    congr 1
    rw [List.filter_filter]
    congr 1
    apply List.filter_congr
    intro a ha
    simp [(List.mem_filter.mp ha).2]
  constructor
  · rw [hsplit, List.count_append, List.count_eq_zero.mpr h2,
      count_filter_ids i _ h0 hni (channels oldDoc) h3 h1]
  · intro h4
    rw [hsplit]
    refine List.Nodup.append h4 ?_ ?_
    · exact h3.sublist (List.Sublist.map _ (List.filter_sublist _))
    · intro a ha hmem
      obtain ⟨c, hcF, he⟩ := List.mem_map.mp hmem
      have hpred := List.of_mem_filter hcF
      simp only [Bool.and_eq_true, Bool.not_eq_true', beq_eq_false_iff_ne, ne_eq] at hpred
      have hmemIds : attrD c "id" [] ∈ (channels newDoc).filterMap (fun c =>
          if attrD c "id" [] = [] then none else some (attrD c "id" [])) :=
        mem_newIds_iff.mpr ⟨hpred.1, he ▸ ha⟩
      have htrue : ((channels newDoc).filterMap (fun c =>
          if attrD c "id" [] = [] then none else some (attrD c "id" []))).contains
            (attrD c "id" []) = true :=
        List.elem_eq_true_of_mem hmemIds
      rw [htrue] at hpred
      exact absurd hpred.2 (by simp)

/-- C4 counterexample: a Channel whose `id` attribute is present but empty
is never carried forward — the claim as stated quantifies over every id
present in the old document, yet `merge_missing_channels` drops the
empty-id channel even though no new-document Channel has that id. -/
theorem channel_carry_forward_counterexample :
    Cacher.merge_missing_channels [] [exChEmpty] = [] ∧
    [] ∈ chanIds [exChEmpty] ∧ ([] : List Char) ∉ chanIds ([] : List Elem) := by
  exact ⟨by rfl, by decide, by decide⟩

/-- C4 witness: carrying channel id `b` from `[exChB]` into `[exChA]`. -/
theorem channel_carry_forward_unique_witness :
    (chanIds (Cacher.merge_missing_channels [exChA] [exChB])).count (str "b") = 1 ∧
    ((chanIds [exChA]).Nodup →
      (chanIds (Cacher.merge_missing_channels [exChA] [exChB])).Nodup) :=
  channel_carry_forward_unique [exChA] [exChB] (str "b") (by decide) (by decide)
    (by decide) (by decide)

/-! ### Claim C5 -/

theorem subS_inst (t : PyDT) (k : Int) {z : Int} (h : t.tz = some z) :
    (subS t k).inst = t.inst - k := by
  simp [subS, PyDT.inst, h]
  ring

/-- C5: the staleness filter.  `is_old_programme` (`functions.py`) is true
iff the programme's `stop` parses (under `DATE_FMT`) to an instant
strictly earlier than `now - 1 day`, and is false whenever `stop` is
missing or unparsable (fails open); the start-keyed variant inlined in
`merge_missing_programmes` (`epg_cacher.py`) skips a programme iff its
`start` parses and its timezone-stripped wall clock is strictly earlier
than naive `now - 1 day`, and never skips a programme whose `start` fails
to parse. -/
theorem staleness_filter_semantics (p : Elem) (now : PyDT) (z : Int) (nw : Int)
    (hz : now.tz = some z) :
    (Functions.is_old_programme now p = .ok true ↔
      ∃ dt, Functions.get_datetime (attrD p "stop" []) = some dt ∧
        dt.inst < now.inst - 86400) ∧
    (Functions.get_datetime (attrD p "stop" []) = none →
      Functions.is_old_programme now p = .ok false) ∧
    (Cacher.skip_old_start nw p = true ↔
      ∃ dt, Cacher.parse_datetime (attrD p "start" []) = some dt ∧
        dt.wall < nw - 86400) ∧
    (Cacher.parse_datetime (attrD p "start" []) = none →
      Cacher.skip_old_start nw p = false) := by
  refine ⟨?_, ?_, ?_, ?_⟩
  · cases hg : Functions.get_datetime (attrD p "stop" []) with
    | none => simp [Functions.is_old_programme, hg]
    | some st =>
      obtain ⟨zs, hzs⟩ := strptimeF_fmt1_aware (show strptimeF FMT1 _ = some st from hg)
      simp only [Functions.is_old_programme, hg]
      rw [pyLt_aware hzs (show (subS now 86400).tz = some z by simpa [subS] using hz),
        subS_inst now 86400 hz]
      simp
  · intro h
    simp [Functions.is_old_programme, h]
  · cases hg : Cacher.parse_datetime (attrD p "start" []) with
    | none => simp [Cacher.skip_old_start, hg]
    | some st => simp [Cacher.skip_old_start, hg]
  · intro h
    simp [Cacher.skip_old_start, h]

/-- C5 witness: the staleness characterisation at `exPo` and noon of
2024-01-01 UTC. -/
theorem staleness_filter_semantics_witness :
    (Functions.is_old_programme exNow exPo = .ok true ↔
      ∃ dt, Functions.get_datetime (attrD exPo "stop" []) = some dt ∧
        dt.inst < exNow.inst - 86400) ∧
    (Functions.get_datetime (attrD exPo "stop" []) = none →
      Functions.is_old_programme exNow exPo = .ok false) ∧
    (Cacher.skip_old_start 63839707200 exPo = true ↔
      ∃ dt, Cacher.parse_datetime (attrD exPo "start" []) = some dt ∧
        dt.wall < 63839707200 - 86400) ∧
    (Cacher.parse_datetime (attrD exPo "start" []) = none →
      Cacher.skip_old_start 63839707200 exPo = false) :=
  staleness_filter_semantics exPo exNow 0 63839707200 rfl

/-! ### Claim C6 -/

theorem functions_is_overlap_error {p1 p2 : Elem}
    (h : (∃ e, Functions.strptimeE (attr p1 "start") = .error e) ∨
         (∃ e, Functions.strptimeE (attr p1 "stop") = .error e) ∨
         (∃ e, Functions.strptimeE (attr p2 "start") = .error e) ∨
         (∃ e, Functions.strptimeE (attr p2 "stop") = .error e)) :
    ∃ e, Functions.is_overlap p1 p2 = .error e := by
  cases hA : Functions.strptimeE (attr p1 "start") with
  | error e => exact ⟨e, by simp [Functions.is_overlap, hA, Bind.bind, Except.bind]⟩
  | ok S1 =>
    cases hB : Functions.strptimeE (attr p1 "stop") with
    | error e => exact ⟨e, by simp [Functions.is_overlap, hA, hB, Bind.bind, Except.bind]⟩
    | ok T1 =>
      cases hC : Functions.strptimeE (attr p2 "start") with
      | error e =>
        exact ⟨e, by simp [Functions.is_overlap, hA, hB, hC, Bind.bind, Except.bind]⟩
      | ok S2 =>
        cases hD : Functions.strptimeE (attr p2 "stop") with
        | error e =>
          exact ⟨e, by simp [Functions.is_overlap, hA, hB, hC, hD, Bind.bind, Except.bind]⟩
        | ok T2 =>
          exfalso
          rcases h with ⟨e, he⟩ | ⟨e, he⟩ | ⟨e, he⟩ | ⟨e, he⟩
          · rw [he] at hA; exact absurd hA (by simp)
          · rw [he] at hB; exact absurd hB (by simp)
          · rw [he] at hC; exact absurd hC (by simp)
          · rw [he] at hD; exact absurd hD (by simp)

/-- C6 (amended): when any interval endpoint is missing or unparsable, the
two overlap matchers behave differently.  `programmes_overlap`
(`epg_cacher.py`) returns false and never raises, as claimed; `is_overlap`
(`functions.py`) calls `datetime.strptime` without a handler and raises —
`TypeError` for a missing attribute, `ValueError` for an unparsable one —
instead of returning false. -/
theorem unparsable_endpoints_fail_safely (tol : Int) (p1 p2 : Elem)
    (h1 : Cacher.parse_datetime (attrD p1 "start" []) = none ∨
          Cacher.parse_datetime (attrD p1 "stop" []) = none ∨
          Cacher.parse_datetime (attrD p2 "start" []) = none ∨
          Cacher.parse_datetime (attrD p2 "stop" []) = none)
    (h2 : (∃ e, Functions.strptimeE (attr p1 "start") = .error e) ∨
          (∃ e, Functions.strptimeE (attr p1 "stop") = .error e) ∨
          (∃ e, Functions.strptimeE (attr p2 "start") = .error e) ∨
          (∃ e, Functions.strptimeE (attr p2 "stop") = .error e)) :
    Cacher.programmes_overlap tol p1 p2 = .ok false ∧
    ∃ e, Functions.is_overlap p1 p2 = .error e :=
  ⟨programmes_overlap_unparsable h1, functions_is_overlap_error h2⟩

/-- C6 counterexample: on the pair `(exPbad, exPo)` — `exPbad`'s `stop` does
not parse — the `functions.py` overlap matcher raises `ValueError` instead
of returning false, refuting "the matcher never raises an error". -/
theorem unparsable_endpoint_raises :
    Functions.is_overlap exPbad exPo = .error .valueError ∧
    Functions.attributes_match exPbad exPo = .error .valueError := by
  exact ⟨by rfl, by rfl⟩

/-- C6 witness: the amended theorem at `(exPbad, exPo)` with the default
tolerance. -/
theorem unparsable_endpoints_fail_safely_witness :
    Cacher.programmes_overlap 600 exPbad exPo = .ok false ∧
    ∃ e, Functions.is_overlap exPbad exPo = .error e :=
  unparsable_endpoints_fail_safely 600 exPbad exPo
    (Or.inr (Or.inl (by rfl)))
    (Or.inr (Or.inl ⟨.valueError, by rfl⟩))

/-! ### Claim C8 -/

/-- C8 (amended): how the two tolerant-comparison sites treat timezones.
In image-attachment matching (`merge_programme_images`) timezone info is
stripped from *each* side that carries it: with exactly one aware side the
raw wall-clock fields are compared, as claimed, but with two aware sides
the offsets are likewise discarded — awareness is *not* preserved.  In
programme-overlap matching (`programmes_overlap`) nothing is stripped:
with all four endpoints aware the comparison respects the offsets
(instant comparison), and when the first compared pair has exactly one
aware side the matcher raises `TypeError` rather than stripping. -/
theorem timezone_mixing_normalization (tol : Int) :
    (∀ w1 z1 w2 z2, Cacher.image_time_match tol (PyDT.mk w1 (some z1))
        (PyDT.mk w2 (some z2)) = decide (|w1 - w2| ≤ tol)) ∧
    (∀ w1 z1 w2, Cacher.image_time_match tol (PyDT.mk w1 (some z1))
          (PyDT.mk w2 none) = decide (|w1 - w2| ≤ tol) ∧
        Cacher.image_time_match tol (PyDT.mk w1 none)
          (PyDT.mk w2 (some z1)) = decide (|w1 - w2| ≤ tol)) ∧
    (∀ (p1 p2 : Elem) (S1 T1 S2 T2 : PyDT) (z1 w1 z2 w2 : Int),
      Cacher.parse_datetime (attrD p1 "start" []) = some S1 →
      Cacher.parse_datetime (attrD p1 "stop" []) = some T1 →
      Cacher.parse_datetime (attrD p2 "start" []) = some S2 →
      Cacher.parse_datetime (attrD p2 "stop" []) = some T2 →
      S1.tz = some z1 → T1.tz = some w1 → S2.tz = some z2 → T2.tz = some w2 →
      Cacher.programmes_overlap tol p1 p2 =
        .ok (decide (S1.inst ≤ T2.inst + tol ∧ S2.inst ≤ T1.inst + tol))) ∧
    (∀ (p1 p2 : Elem) (S1 T1 S2 T2 : PyDT),
      Cacher.parse_datetime (attrD p1 "start" []) = some S1 →
      Cacher.parse_datetime (attrD p1 "stop" []) = some T1 →
      Cacher.parse_datetime (attrD p2 "start" []) = some S2 →
      Cacher.parse_datetime (attrD p2 "stop" []) = some T2 →
      S1.tz.isSome ≠ T2.tz.isSome →
      Cacher.programmes_overlap tol p1 p2 = .error .typeError) := by
  refine ⟨?_, ?_, ?_, ?_⟩
  · intro w1 z1 w2 z2
    rfl
  · intro w1 z1 w2
    exact ⟨rfl, rfl⟩
  · intro p1 p2 S1 T1 S2 T2 z1 w1 z2 w2 d1 d2 d3 d4 hz1 hw1 hz2 hw2
    exact programmes_overlap_aware d1 d2 d3 d4 hz1 hw1 hz2 hw2
  · intro p1 p2 S1 T1 S2 T2 d1 d2 d3 d4 hmix
    exact programmes_overlap_mixed d1 d2 d3 d4 hmix

/-- C8 counterexample: with both instants timezone-aware the image matcher
compares stripped wall clocks — a `+0000` programme start and a `+0500`
index timestamp, five hours apart as instants, match within a 10-minute
tolerance and images are attached; and on a mixed aware/naive pair the
overlap matcher raises `TypeError` instead of stripping the timezone. -/
theorem timezone_mixing_counterexample :
    Cacher.merge_programme_images 600 exMapping exImageMap [exPo] =
      [Cacher.attach_images [str "imgA"] exPo] ∧
    Cacher.merge_programme_images 600 exMapping exImageMap [exPo] ≠ [exPo] ∧
    (PyDT.mk 63839707200 (some 0)).inst - (PyDT.mk 63839707200 (some 18000)).inst
      = 18000 ∧
    Cacher.programmes_overlap 600 exPo exPmixB = .error .typeError := by
  refine ⟨by rfl, ?_, by decide, by rfl⟩
  intro h
  have h1 := ((List.cons.injEq _ _ _ _).mp h).1
  have h2 := congrArg (fun e => e.children.length) h1
  exact absurd h2 (by decide)

/-- C8 witness: the four normalization facts at concrete inputs. -/
theorem timezone_mixing_normalization_witness :
    Cacher.image_time_match 600 (PyDT.mk 100 (some 7)) (PyDT.mk 400 (some 9)) =
      decide (|(100 : Int) - 400| ≤ 600) ∧
    Cacher.image_time_match 600 (PyDT.mk 100 (some 7)) (PyDT.mk 400 none) =
      decide (|(100 : Int) - 400| ≤ 600) ∧
    Cacher.programmes_overlap 600 exPo exPg =
      .ok (decide ((PyDT.mk 63839707200 (some 0)).inst ≤
          (PyDT.mk 63839714400 (some 0)).inst + 600 ∧
        (PyDT.mk 63839711100 (some 0)).inst ≤
          (PyDT.mk 63839710800 (some 0)).inst + 600)) ∧
    Cacher.programmes_overlap 600 exPo exPmixB = .error .typeError := by
  have h := timezone_mixing_normalization 600
  exact ⟨h.1 100 7 400 9, (h.2.1 100 7 400).1,
    h.2.2.1 exPo exPg _ _ _ _ 0 0 0 0 rfl rfl rfl rfl rfl rfl rfl rfl,
    h.2.2.2 exPo exPmixB _ _ _ _ rfl rfl rfl rfl (by decide)⟩

/-! ### Claims C9 and C10 -/

theorem exists_first_split {c : Char} {l : List Char} (h : c ∈ l) :
    ∃ a b, l = a ++ c :: b ∧ c ∉ a := by
  induction l with
  | nil => simp at h
  | cons x xs ih =>
    by_cases hx : x = c
    · exact ⟨[], xs, by rw [hx]; rfl, by simp⟩
    · have h' : c ∈ xs := by
        rcases List.mem_cons.mp h with h1 | h1
        · exact absurd h1.symm hx
        · exact h1
      obtain ⟨a, b, rfl, hna⟩ := ih h'
      refine ⟨x :: a, b, rfl, ?_⟩
      simp only [List.mem_cons, not_or]
      exact ⟨fun he => hx he.symm, hna⟩

theorem splitOnce_append {a r : List Char} (hna : '_' ∉ a) :
    Cacher.splitOnce '_' (a ++ '_' :: r) = (a, some r) := by
  induction a with
  | nil => simp [Cacher.splitOnce]
  | cons x a' ih =>
    have hx : ¬ x = '_' := fun he => hna (he ▸ List.mem_cons_self x a')
    have hna' : '_' ∉ a' := fun hm => hna (List.mem_cons_of_mem _ hm)
    simp [Cacher.splitOnce, hx, ih hna']

/-- When the secondary channel id contains an underscore, the part of any
matching index key after its first underscore still contains an
underscore, hence never parses, and the time lookup finds nothing. -/
theorem lookup_images_us {tol : Int} {c2 : List Char} {t1 : PyDT}
    (hus : '_' ∈ c2) :
    ∀ imageMap, Cacher.lookup_images tol c2 t1 imageMap = none := by
  intro imageMap
  induction imageMap with
  | nil => rfl
  | cons e rest ih =>
    obtain ⟨pid, imgs⟩ := e
    by_cases hpre : (c2 ++ ['_']).isPrefixOf pid = true
    · obtain ⟨tail, htail⟩ := List.isPrefixOf_iff_prefix.mp hpre
      obtain ⟨a, b, hc2, hna⟩ := exists_first_split hus
      have hpid : pid = a ++ '_' :: (b ++ '_' :: tail) := by
        rw [← htail, hc2]
        simp
      have hsp : Cacher.splitOnce '_' pid = (a, some (b ++ '_' :: tail)) := by
        rw [hpid]; exact splitOnce_append hna
      have hparse : Cacher.parse_datetime (b ++ '_' :: tail) = none :=
        parse_datetime_us_none (by simp)
      simp only [Cacher.lookup_images, hpre, if_true, hsp, hparse]
      exact ih
    · simp only [Cacher.lookup_images, hpre, if_false]
      exact ih

/-- A programme mapped to an underscore-holding secondary id is never
modified. -/
theorem process_programme_us {tol : Int} {c2 : List Char} {p : Elem}
    (hus : '_' ∈ c2) (imageMap : List (List Char × List (List Char))) :
    Cacher.process_programme tol imageMap c2 p = p := by
  by_cases hs : attrD p "start" [] = []
  · simp [Cacher.process_programme, hs]
  · cases hp : Cacher.parse_datetime (attrD p "start" []) with
    | none => simp [Cacher.process_programme, hs, hp]
    | some t1 => simp [Cacher.process_programme, hs, hp, lookup_images_us hus imageMap]

/-- Core frame lemma: a programme whose `channel` is, for every mapping
entry naming it, mapped to an empty or underscore-holding secondary id,
passes through `merge_programme_images` unchanged in place. -/
theorem merge_images_fixes_programme (tol : Int)
    (mapping : List (List Char × List Char))
    (imageMap : List (List Char × List (List Char))) (p : Elem) (d1 d2 : List Elem)
    (hp : ∀ c1 c2, (c1, c2) ∈ mapping → attr p "channel" = some c1 →
      c2 = [] ∨ '_' ∈ c2) :
    Cacher.merge_programme_images tol mapping imageMap (d1 ++ p :: d2) =
      Cacher.merge_programme_images tol mapping imageMap d1 ++
        p :: Cacher.merge_programme_images tol mapping imageMap d2 := by
  revert hp
  induction mapping generalizing d1 d2 with
  | nil => intro _; rfl
  | cons m ms ih =>
    intro hp
    obtain ⟨c1, c2⟩ := m
    have hstep : Cacher.process_entry tol imageMap c1 c2 (d1 ++ p :: d2) =
        Cacher.process_entry tol imageMap c1 c2 d1 ++ p ::
        Cacher.process_entry tol imageMap c1 c2 d2 := by
      unfold Cacher.process_entry
      by_cases hc2 : c2 = []
      · rw [if_pos hc2, if_pos hc2, if_pos hc2]
      · rw [if_neg hc2, if_neg hc2, if_neg hc2, List.map_append, List.map_cons]
        have hmid : (if (p.tag == "programme" && (attr p "channel" == some c1)) = true
            then Cacher.process_programme tol imageMap c2 p else p) = p := by
          by_cases hcond : (p.tag == "programme" && (attr p "channel" == some c1)) = true
          · rw [if_pos hcond]
            by_cases hch : attr p "channel" = some c1
            · rcases hp c1 c2 (by simp) hch with h | h
              · exact absurd h hc2
              · exact process_programme_us h imageMap
            · exfalso
              simp [hch] at hcond
          · rw [if_neg hcond]
        rw [hmid]
    simp only [Cacher.merge_programme_images, List.foldl_cons]
    rw [hstep]
    exact ih _ _ (fun c1' c2' hm hch => hp c1' c2' (List.mem_cons_of_mem _ hm) hch)

theorem mapping_key_unique :
    ∀ (l : List (List Char × List Char)) (c b b' : List Char),
      (l.map Prod.fst).Nodup → (c, b) ∈ l → (c, b') ∈ l → b = b' := by
  intro l
  induction l with
  | nil => intro c b b' _ h1 _; simp at h1
  | cons e rest ih =>
    intro c b b' hnd h1 h2
    simp only [List.map_cons, List.nodup_cons] at hnd
    rcases List.mem_cons.mp h1 with ha | ha
    · rcases List.mem_cons.mp h2 with hb | hb
      · rw [← ha] at hb
        exact (((Prod.mk.injEq ..).mp hb).2).symm
      · exfalso
        apply hnd.1
        rw [← ha]
        simpa using List.mem_map_of_mem Prod.fst hb
    · rcases List.mem_cons.mp h2 with hb | hb
      · exfalso
        apply hnd.1
        rw [← hb]
        simpa using List.mem_map_of_mem Prod.fst ha
      · exact ih c b b' hnd.2 ha hb

/-- C9: frame property of the image attacher.  A programme whose `channel`
attribute is absent from the channel mapping, or mapped only to an empty
secondary id, passes through `merge_programme_images` completely
unchanged, in place, whatever the image index holds. -/
theorem image_attacher_frame (tol : Int) (mapping : List (List Char × List Char))
    (imageMap : List (List Char × List (List Char))) (p : Elem) (d1 d2 : List Elem)
    (hp : ∀ c1 c2, (c1, c2) ∈ mapping → attr p "channel" = some c1 → c2 = []) :
    Cacher.merge_programme_images tol mapping imageMap (d1 ++ p :: d2) =
      Cacher.merge_programme_images tol mapping imageMap d1 ++
        p :: Cacher.merge_programme_images tol mapping imageMap d2 :=
  merge_images_fixes_programme tol mapping imageMap p d1 d2
    (fun c1 c2 hm hch => Or.inl (hp c1 c2 hm hch))

/-- C9 witness: primary channel id `7` is absent from `exMapping`
(which only maps id `5`), so `exPm` passes through unchanged even though
the image index is non-empty. -/
theorem image_attacher_frame_witness :
    Cacher.merge_programme_images 600 exMapping exImageMap ([] ++ exPm :: []) =
      Cacher.merge_programme_images 600 exMapping exImageMap [] ++
        exPm :: Cacher.merge_programme_images 600 exMapping exImageMap [] :=
  image_attacher_frame 600 exMapping exImageMap exPm [] []
    (by intro c1 c2 hm hch
        simp only [exMapping, List.mem_singleton] at hm
        obtain ⟨h1, h2⟩ := Prod.mk.injEq .. ▸ hm
        subst h1
        exact absurd hch (by decide))

/-- C10: a channel-mapping entry whose secondary id contains an underscore
never attaches images.  The index key is `channel + "_" + start`; the
lookup splits a key at its *first* underscore, so the recovered
"timestamp" starts inside the secondary channel id, still contains an
underscore, and fails every parse — hence every tolerance comparison
fails and every programme of the mapped primary channel passes through
unchanged. -/
theorem underscore_mapping_never_attaches (tol : Int)
    (mapping : List (List Char × List Char))
    (imageMap : List (List Char × List (List Char))) (c1 c2 : List Char)
    (p : Elem) (d1 d2 : List Elem)
    (hmem : (c1, c2) ∈ mapping) (hus : '_' ∈ c2)
    (hnd : (mapping.map Prod.fst).Nodup)
    (hch : attr p "channel" = some c1) :
    Cacher.merge_programme_images tol mapping imageMap (d1 ++ p :: d2) =
      Cacher.merge_programme_images tol mapping imageMap d1 ++
        p :: Cacher.merge_programme_images tol mapping imageMap d2 :=
  merge_images_fixes_programme tol mapping imageMap p d1 d2
    (fun c1' c2' hm' hch' => by
      have hceq : c1' = c1 := by
        rw [hch'] at hch
        exact (Option.some.injEq ..▸ hch).symm ▸ rfl
      subst hceq
      exact Or.inr (mapping_key_unique mapping c1' c2 c2' hnd hmem hm' ▸ hus))

/-- C10 witness: the mapping `5 → a_b` with an index entry keyed
`a_b_20240101120000 +0000` attaches nothing to `exPo` (channel `5`,
start wall-clock equal to the key's timestamp part). -/
theorem underscore_mapping_never_attaches_witness :
    Cacher.merge_programme_images 600 exMappingUS exImageMapUS ([] ++ exPo :: []) =
      Cacher.merge_programme_images 600 exMappingUS exImageMapUS [] ++
        exPo :: Cacher.merge_programme_images 600 exMappingUS exImageMapUS [] :=
  underscore_mapping_never_attaches 600 exMappingUS exImageMapUS
    (str "5") (str "a_b") exPo [] [] (by decide) (by decide) (by decide) (by rfl)
